import Mathlib

/-
Verification of the better-images pixel-buffer library.

The development shallowly embeds the Rust sources:
  * src/image_buffer.rs : the generic ImageBuffer container, its construction
    paths, iteration views and transformation operations;
  * src/color_space.rs  : the ColorSpace tagged union and rgb_to_cielab';
  * src/lib.rs          : re-exports, among them Image and ImageFactory whose
    defining module is absent from the sources, so those two are modelled
    from the specification.

Machine integers of the source (usize dimensions, channel counts) are
modelled as Nat; Vec<Component> as List; Result<_, &str> as Except String;
Option as Option.  The f32 arithmetic of rgb_to_cielab' is idealised as real
arithmetic, with powf(1.0/3.0) as the real cube root (rpow).
-/

namespace BetterImages

/-- Componentwise overwrite of a prefix of `dst` with values drawn from
`src`, models the loop `for (c1, c2) in dst.iter_mut().zip(src.iter())
\x7b *c1 = *c2; \x7d`: exactly `min dst.length src.length` slots are written,
the rest of `dst` is kept. -/
def zipWrite (dst src : List α) : List α :=
  src.take dst.length ++ dst.drop src.length

/-- Worker for `chunksExact`: produces `m` successive chunks of `n`
elements of `l`. -/
def chunksExactGo (n : Nat) : Nat → List α → List (List α)
  | 0, _ => []
  | m + 1, l => l.take n :: chunksExactGo n m (l.drop n)

/-- The sequence of exact `n`-element chunks of `l` (any remainder is
dropped), models `slice::array_chunks::<n>` which underlies every
iteration view of src/image_buffer.rs. -/
def chunksExact (n : Nat) (l : List α) : List (List α) :=
  if 0 < n then chunksExactGo n (l.length / n) l else []

/-- Worker for `applyChunks`: rewrites `m` successive `n`-chunks of `l`
through `g`, keeping whatever follows them. -/
def applyChunksGo (n : Nat) (g : List α → List α) : Nat → List α → List α
  | 0, l => l
  | m + 1, l => g (l.take n) ++ applyChunksGo n g m (l.drop n)

/-- In-place rewriting of every exact `n`-chunk of `l` by `g`, models a
loop over a mutable chunk iterator that overwrites each yielded chunk
(`for pel in buf.iter_mut() \x7b *pel = g(pel); \x7d`). -/
def applyChunks (n : Nat) (g : List α → List α) (l : List α) : List α :=
  if 0 < n then applyChunksGo n g (l.length / n) l else l

/-- Zipped in-place rewriting: for each item `s` of `srcs` paired with the
next exact `n`-chunk of `dst`, the chunk is overwritten by `g s chunk`;
iteration stops when either sequence runs out, the rest of `dst` is kept.
Models `for (s, pel) in srcs.zip(dst.iter_mut()) \x7b *pel = g(s, pel); \x7d`. -/
def writeChunksZip (n : Nat) (g : σ → List α → List α) :
    List σ → List α → List α
  | [], dst => dst
  | s :: ss, dst =>
    if 0 < n ∧ n ≤ dst.length then
      g s (dst.take n) ++ writeChunksZip n g ss (dst.drop n)
    else dst

/-- ImageBuffer (src/image_buffer.rs): a flat vector of components together
with width and height; COMPONENTS_PER_PEL and HAS_ALPHA are the const
generic parameters of the Rust type. -/
structure ImageBuffer (α : Type) (cpp : Nat) (hasAlpha : Bool) where
  data : List α
  width : Nat
  height : Nat
deriving Repr, DecidableEq

namespace ImageBuffer

/-- with_data (src/image_buffer.rs): wraps an existing vector, failing when
its length does not match `width * height * COMPONENTS_PER_PEL`. -/
def with_data (α : Type) (cpp : Nat) (ha : Bool) (data : List α)
    (width height : Nat) : Except String (ImageBuffer α cpp ha) :=
  let expected_vec_elements := width * height * cpp
  if data.length ≠ expected_vec_elements then
    .error "Data vector length does not match width, height, and number of components per pixel"
  else
    .ok { data := data, width := width, height := height }

/-- empty (src/image_buffer.rs): `width * height * COMPONENTS_PER_PEL`
zero components. -/
def empty (α : Type) [Zero α] (cpp : Nat) (ha : Bool) (width height : Nat) :
    ImageBuffer α cpp ha :=
  { data := List.replicate (width * height * cpp) 0
    width := width
    height := height }

/-- iter_no_alpha (src/image_buffer.rs): the sequence of pixel slices the
read iterator yields.  The `next` implementation ignores SKIP_ALPHA (its
TODO comment records that truncation is unimplemented) and returns every
full `COMPONENTS_PER_PEL` chunk of the data vector. -/
def iter_no_alpha (b : ImageBuffer α cpp ha) : List (List α) :=
  chunksExact cpp b.data

/-- iter (src/image_buffer.rs): delegates to iter_no_alpha. -/
def iter (b : ImageBuffer α cpp ha) : List (List α) :=
  b.iter_no_alpha

/-- iter_with_alpha (src/image_buffer.rs): full chunks of the data vector. -/
def iter_with_alpha (b : ImageBuffer α cpp ha) : List (List α) :=
  chunksExact cpp b.data

/-- iter_no_alpha_mut (src/image_buffer.rs): the sequence of pixel slices
the mutable iterator yields; as in the read case the SKIP_ALPHA parameter
is ignored by `next`, so full chunks are yielded. -/
def iter_no_alpha_mut (b : ImageBuffer α cpp ha) : List (List α) :=
  chunksExact cpp b.data

/-- iter_mut (src/image_buffer.rs): delegates to iter_no_alpha_mut. -/
def iter_mut (b : ImageBuffer α cpp ha) : List (List α) :=
  b.iter_no_alpha_mut

/-- iter_with_alpha_mut (src/image_buffer.rs): full chunks of the data
vector. -/
def iter_with_alpha_mut (b : ImageBuffer α cpp ha) : List (List α) :=
  chunksExact cpp b.data

/-- with_val (src/image_buffer.rs): allocates as `empty`, then copies
`one_pel` componentwise into every pixel through iter_with_alpha_mut. -/
def with_val (α : Type) [Zero α] (cpp : Nat) (ha : Bool) (one_pel : List α)
    (width height : Nat) : ImageBuffer α cpp ha :=
  { data :=
      applyChunks cpp (fun pel => zipWrite pel one_pel)
        (List.replicate (width * height * cpp) 0)
    width := width
    height := height }

/-- as_other (src/image_buffer.rs): a fresh empty buffer of the new layout,
then for each source pixel zipped with a destination pixel, each source
component is cast (`NumCast::from(*c1).unwrap_or_default()`, modelled by
the `cast` parameter with fallback `default`) into the corresponding
destination slot.  Destination slots beyond the zipped prefix keep the
zero fill of `empty`. -/
def as_other [Inhabited β] [Zero β] (b : ImageBuffer α cpp ha)
    (newCpp : Nat) (newHa : Bool) (cast : α → Option β) :
    ImageBuffer β newCpp newHa :=
  { data :=
      writeChunksZip newCpp
        (fun pel old => zipWrite old (pel.map fun c => (cast c).getD default))
        b.iter (List.replicate (b.width * b.height * newCpp) 0)
    width := b.width
    height := b.height }

/-- map (src/image_buffer.rs): clones the receiver, then overwrites each
pixel of the clone with `map_fn` of the corresponding original pixel. -/
def map (b : ImageBuffer α cpp ha) (map_fn : List α → List α) :
    ImageBuffer α cpp ha :=
  { data := writeChunksZip cpp (fun pel _old => map_fn pel) b.iter b.data
    width := b.width
    height := b.height }

/-- apply (src/image_buffer.rs): overwrites each pixel yielded by iter_mut
with `map_fn` of its current value, in place. -/
def apply (b : ImageBuffer α cpp ha) (map_fn : List α → List α) :
    ImageBuffer α cpp ha :=
  { b with data := applyChunks cpp map_fn b.data }

/-- get_plane (src/image_buffer.rs): fails when `i >= COMPONENTS_PER_PEL`,
otherwise extracts component `i` of every pixel into a fresh one-channel
plane of the same dimensions.  The in-range guard makes the `pel[i]`
access safe, so `getD` never falls back to its default. -/
def get_plane [Inhabited α] [Zero α] (b : ImageBuffer α cpp ha) (i : Nat) :
    Except String (ImageBuffer α 1 false) :=
  if i ≥ cpp then
    .error "Plane index out of bounds"
  else
    .ok
      { data :=
          writeChunksZip 1 (fun pel _old => [pel.getD i default]) b.iter
            (List.replicate (b.width * b.height * 1) 0)
        width := b.width
        height := b.height }

/-- get_plane_const (src/image_buffer.rs): as get_plane at a const index,
with no bounds check (the source would panic on an out-of-range index;
in-range use is the only one exercised here). -/
def get_plane_const [Inhabited α] [Zero α] (i : Nat)
    (b : ImageBuffer α cpp ha) : ImageBuffer α 1 false :=
  { data :=
      writeChunksZip 1 (fun pel _old => [pel.getD i default]) b.iter
        (List.replicate (b.width * b.height * 1) 0)
    width := b.width
    height := b.height }

/-- The derived Default of ImageBuffer (Rust `#[derive(Default)]`): an
empty vector with zero dimensions; this is what `unwrap_or_default`
substitutes in get_alpha when get_plane fails. -/
def default_buffer (α : Type) (cpp : Nat) (ha : Bool) : ImageBuffer α cpp ha :=
  { data := [], width := 0, height := 0 }

/-- get_alpha (src/image_buffer.rs): None when HAS_ALPHA is false,
otherwise `Some(get_plane(COMPONENTS_PER_PEL - 1).unwrap_or_default())`.
Nat subtraction models the usize subtraction: both make get_plane succeed
exactly when `0 < COMPONENTS_PER_PEL`. -/
def get_alpha [Inhabited α] [Zero α] (b : ImageBuffer α cpp ha) :
    Option (ImageBuffer α 1 false) :=
  if ha = false then none
  else some ((b.get_plane (cpp - 1)).toOption.getD (default_buffer α 1 false))

/-- put_plane (src/image_buffer.rs): for each pixel yielded by iter_mut
zipped with a pixel of the plane, component `i` of the pixel is overwritten
by the plane value (`pel[i] = new_pel[0]`; the source panics on an
out-of-range `i`, the model then leaves the pixel unchanged since
`List.set` is the identity out of range). -/
def put_plane [Inhabited α] (b : ImageBuffer α cpp ha) (i : Nat)
    (plane : ImageBuffer α 1 false) : ImageBuffer α cpp ha :=
  { b with
    data :=
      writeChunksZip cpp
        (fun (ppel : List α) pel => pel.set i (ppel.getD 0 default))
        plane.iter b.data }

/-- put_plane_const (src/image_buffer.rs): same body as put_plane at a
const index. -/
def put_plane_const [Inhabited α] (i : Nat) (b : ImageBuffer α cpp ha)
    (plane : ImageBuffer α 1 false) : ImageBuffer α cpp ha :=
  { b with
    data :=
      writeChunksZip cpp
        (fun (ppel : List α) pel => pel.set i (ppel.getD 0 default))
        plane.iter b.data }

end ImageBuffer

/-- ColorSpace (src/color_space.rs): a tagged union over the four supported
layouts, each wrapping an ImageBuffer whose const parameters match the
tag. -/
inductive ColorSpace (T : Type) where
  | Rgba : ImageBuffer T 4 true → ColorSpace T
  | Rgb : ImageBuffer T 3 false → ColorSpace T
  | Hsv : ImageBuffer T 3 false → ColorSpace T
  | Cielab' : ImageBuffer T 3 false → ColorSpace T

/-- rgb_to_cielab' (src/color_space.rs), f32 arithmetic idealised over ℝ.
The input cast `<f32 as NumCast>::from(rgb[k]).unwrap_or_default()` is the
parameter `castIn` with fallback 0, the output cast
`<T2 as NumCast>::from(v).unwrap_or_default()` is `castOut` with fallback
`default`, and `powf(1.0 / 3.0)` is the real rpow at exponent 1/3. -/
noncomputable def rgb_to_cielab' [Inhabited α] [Inhabited β]
    (castIn : α → Option ℝ) (castOut : ℝ → Option β) (rgb : List α) :
    List β :=
  let r := (castIn (rgb.getD 0 default)).getD 0 / 255
  let g := (castIn (rgb.getD 1 default)).getD 0 / 255
  let b := (castIn (rgb.getD 2 default)).getD 0 / 255
  let x := r * 0.4124564 + g * 0.3575761 + b * 0.1804375
  let y := r * 0.2126729 + g * 0.7151522 + b * 0.0721750
  let z := r * 0.0193339 + g * 0.1191920 + b * 0.9503041
  let x := if x > 0.008856 then x ^ ((1 : ℝ) / 3) else 7.787 * x + 16.0 / 116.0
  let y := if y > 0.008856 then y ^ ((1 : ℝ) / 3) else 7.787 * y + 16.0 / 116.0
  let z := if z > 0.008856 then z ^ ((1 : ℝ) / 3) else 7.787 * z + 16.0 / 116.0
  let l := (castOut (116.0 * y - 16.0)).getD default
  let a := (castOut (500.0 * (x - y))).getD default
  let b := (castOut (200.0 * (y - z))).getD default
  [l, a, b]

/-- The CIE nonlinear companding step as the specification words it: cube
root when the value exceeds 0.008856, else the linear segment
`7.787*v + 16/116`. -/
noncomputable def cie_compand (v : ℝ) : ℝ :=
  if v > 0.008856 then v ^ ((1 : ℝ) / 3) else 7.787 * v + 16 / 116

/-- The RGB→CIELAB conversion as the specification describes it, built for
comparison with the source definition: normalize each input channel by
255, apply the fixed linear sRGB→XYZ matrix, compand each of X, Y, Z
independently, form L, a, b and cast each to the destination component
with default fallback. -/
noncomputable def rgb_to_cielab_spec [Inhabited α] [Inhabited β]
    (castIn : α → Option ℝ) (castOut : ℝ → Option β) (rgb : List α) :
    List β :=
  let r := (castIn (rgb.getD 0 default)).getD 0 / 255
  let g := (castIn (rgb.getD 1 default)).getD 0 / 255
  let b := (castIn (rgb.getD 2 default)).getD 0 / 255
  let xp := cie_compand (r * 0.4124564 + g * 0.3575761 + b * 0.1804375)
  let yp := cie_compand (r * 0.2126729 + g * 0.7151522 + b * 0.0721750)
  let zp := cie_compand (r * 0.0193339 + g * 0.1191920 + b * 0.9503041)
  [(castOut (116 * yp - 16)).getD default,
   (castOut (500 * (xp - yp))).getD default,
   (castOut (200 * (yp - zp))).getD default]

/-- NumCast from an 8-bit unsigned component into f32: every u8 value is
exactly representable, so the cast always succeeds with the same value. -/
noncomputable def numcast_u8_to_f32 (n : Nat) : Option ℝ :=
  some (n : ℝ)

/-- NumCast from f32 into f32: the identity, always successful. -/
noncomputable def numcast_f32_to_f32 (v : ℝ) : Option ℝ :=
  some v

/-- NumCast from an f32 value (restricted to exactly representable
rationals) into an 8-bit unsigned integer, after num_traits: the value is
truncated toward zero and the cast fails when the result does not fit in
0..=255. -/
def numcast_f32_to_u8 (q : ℚ) : Option Nat :=
  if 0 ≤ q ∧ q < 256 then some q.floor.toNat else none

/-- Modelled from the spec: the five supported component types of the
type-erasure layer are the 8/16/32/64/128-bit unsigned integers (spec §3:
a tagged union over five cases, one per allowed Component type).  Their
values are represented as Nat; only the tags matter to this layer. -/
def U8 : Type := Nat

/-- Modelled from the spec: 16-bit unsigned component type tag. -/
def U16 : Type := Nat

/-- Modelled from the spec: 32-bit unsigned component type tag. -/
def U32 : Type := Nat

/-- Modelled from the spec: 64-bit unsigned component type tag. -/
def U64 : Type := Nat

/-- Modelled from the spec: 128-bit unsigned component type tag. -/
def U128 : Type := Nat

/-- Modelled from the spec: the Image type-erasure wrapper re-exported by
src/lib.rs whose defining module is absent from the sources — a tagged
union over the five supported component types, each case holding a
ColorSpace value at that component type (spec §3, §4.7). -/
inductive Image where
  | u8 : ColorSpace U8 → Image
  | u16 : ColorSpace U16 → Image
  | u32 : ColorSpace U32 → Image
  | u64 : ColorSpace U64 → Image
  | u128 : ColorSpace U128 → Image

/-- Modelled from the spec: the width accessor of the Color-Space layer
(spec §4.5: width/height accessors dispatch across the four tags
uniformly and delegate to the wrapped buffer). -/
def ColorSpace.cs_width : ColorSpace T → Nat
  | .Rgba b => b.width
  | .Rgb b => b.width
  | .Hsv b => b.width
  | .Cielab' b => b.width

/-- Modelled from the spec: the height accessor of the Color-Space layer. -/
def ColorSpace.cs_height : ColorSpace T → Nat
  | .Rgba b => b.height
  | .Rgb b => b.height
  | .Hsv b => b.height
  | .Cielab' b => b.height

/-- Modelled from the spec: ImageFactory, re-exported by src/lib.rs with
its defining module absent from the sources — a factory operation,
parameterized by Component type, that selects the matching variant tag
and stores the Color-Space payload inside it (spec §4.7). -/
class ImageFactory (T : Type) where
  make_image : ColorSpace T → Image

instance : ImageFactory U8 := ⟨Image.u8⟩

instance : ImageFactory U16 := ⟨Image.u16⟩

instance : ImageFactory U32 := ⟨Image.u32⟩

instance : ImageFactory U64 := ⟨Image.u64⟩

instance : ImageFactory U128 := ⟨Image.u128⟩

/-- Modelled from the spec: the width accessor of the Image wrapper
pattern-matches across all five component-type variants and delegates to
the wrapped buffer (spec §4.7). -/
def Image.width : Image → Nat
  | .u8 cs => cs.cs_width
  | .u16 cs => cs.cs_width
  | .u32 cs => cs.cs_width
  | .u64 cs => cs.cs_width
  | .u128 cs => cs.cs_width

/-- Modelled from the spec: the height accessor of the Image wrapper. -/
def Image.height : Image → Nat
  | .u8 cs => cs.cs_height
  | .u16 cs => cs.cs_height
  | .u32 cs => cs.cs_height
  | .u64 cs => cs.cs_height
  | .u128 cs => cs.cs_height

section ChunkLemmas

variable {α : Type} {σ : Type}

theorem zipWrite_length (dst src : List α) :
    (zipWrite dst src).length = dst.length := by
  unfold zipWrite
  simp only [List.length_append, List.length_take, List.length_drop]
  omega

theorem getD_list_drop (l : List α) (a b : Nat) (d : α) :
    (l.drop a).getD b d = l.getD (a + b) d := by
  induction a generalizing l with
  | zero => simp
  | succ a ih =>
    cases l with
    | nil => simp
    | cons x xs => simp [Nat.succ_add, ih xs]

theorem getD_list_take (l : List α) {n b : Nat} (h : b < n) (d : α) :
    (l.take n).getD b d = l.getD b d := by
  simp [List.getD_eq_getElem?_getD, List.getElem?_take_of_lt h]

theorem getD_of_length_le (l : List α) {n : Nat} (h : l.length ≤ n) (d : α) :
    l.getD n d = d := by
  simp [List.getD_eq_getElem?_getD, List.getElem?_eq_none h]

theorem zipWrite_getD (dst src : List α) (j : Nat) (d : α) :
    (zipWrite dst src).getD j d =
      if j < min dst.length src.length then src.getD j d else dst.getD j d := by
  unfold zipWrite
  by_cases hj : j < min dst.length src.length
  · rw [if_pos hj]
    have hlt : j < (src.take dst.length).length := by
      simp only [List.length_take]
      omega
    rw [List.getD_append _ _ _ _ hlt]
    exact getD_list_take src (by omega) d
  · rw [if_neg hj]
    have hge : (src.take dst.length).length ≤ j := by
      simp only [List.length_take]
      omega
    rw [List.getD_append_right _ _ _ _ hge]
    simp only [List.length_take]
    rcases Nat.le_total src.length dst.length with hc | hc
    · rw [getD_list_drop]
      congr 1
      omega
    · have hdrop : dst.drop src.length = [] := by
        simp [List.drop_eq_nil_iff, hc]
      rw [hdrop, List.getD_nil, getD_of_length_le dst (by omega) d]

theorem chunksExactGo_length (n : Nat) :
    ∀ (m : Nat) (l : List α), (chunksExactGo n m l).length = m := by
  intro m
  induction m with
  | zero => intro l; rfl
  | succ m ih => intro l; simp [chunksExactGo, ih]

theorem chunksExactGo_getD (n : Nat) :
    ∀ (m k : Nat) (l : List α), k < m →
      (chunksExactGo n m l).getD k [] = (l.drop (n * k)).take n := by
  intro m
  induction m with
  | zero => intro k l hk; omega
  | succ m ih =>
    intro k l hk
    cases k with
    | zero => simp [chunksExactGo]
    | succ k =>
      have hk' : k < m := by omega
      simp only [chunksExactGo, List.getD_cons_succ, ih k (l.drop n) hk']
      rw [List.drop_drop]
      congr 2
      ring

theorem chunksExact_length_of_pos {n : Nat} (hn : 0 < n) (l : List α) :
    (chunksExact n l).length = l.length / n := by
  simp [chunksExact, hn, chunksExactGo_length]

theorem chunksExact_getD {n : Nat} (hn : 0 < n) (l : List α) (k : Nat)
    (hk : k < l.length / n) :
    (chunksExact n l).getD k [] = (l.drop (n * k)).take n := by
  simp only [chunksExact, if_pos hn]
  exact chunksExactGo_getD n _ k l hk

theorem applyChunksGo_length {n : Nat} {g : List α → List α}
    (hg : ∀ c : List α, c.length = n → (g c).length = n) :
    ∀ (m : Nat) (l : List α), n * m ≤ l.length →
      (applyChunksGo n g m l).length = l.length := by
  intro m
  induction m with
  | zero => intro l _; rfl
  | succ m ih =>
    intro l hm
    have hx : n * (m + 1) = n * m + n := by ring
    have hn_le : n ≤ l.length := by omega
    have htake : (l.take n).length = n := List.length_take_of_le hn_le
    have hrec : n * m ≤ (l.drop n).length := by
      simp only [List.length_drop]
      omega
    simp only [applyChunksGo, List.length_append, hg _ htake, ih _ hrec,
      List.length_drop]
    omega

theorem applyChunks_length {n : Nat} {g : List α → List α}
    (hg : ∀ c : List α, c.length = n → (g c).length = n) (l : List α) :
    (applyChunks n g l).length = l.length := by
  unfold applyChunks
  by_cases hn : 0 < n
  · rw [if_pos hn]
    exact applyChunksGo_length hg _ l
      (by rw [Nat.mul_comm]; exact Nat.div_mul_le_self _ _)
  · rw [if_neg hn]

theorem writeChunksZip_length {n : Nat} {g : σ → List α → List α}
    (hg : ∀ (s : σ) (c : List α), c.length = n → (g s c).length = n) :
    ∀ (ss : List σ) (dst : List α),
      (writeChunksZip n g ss dst).length = dst.length := by
  intro ss
  induction ss with
  | nil => intro dst; rfl
  | cons s ss ih =>
    intro dst
    unfold writeChunksZip
    by_cases hc : 0 < n ∧ n ≤ dst.length
    · rw [if_pos hc]
      have htake : (dst.take n).length = n := List.length_take_of_le hc.2
      simp only [List.length_append, hg _ _ htake, ih, List.length_drop]
      omega
    · rw [if_neg hc]

theorem writeChunksZip_chunk {n : Nat} (hn : 0 < n) {g : σ → List α → List α}
    (hg : ∀ (s : σ) (c : List α), c.length = n → (g s c).length = n) (s₀ : σ) :
    ∀ (k : Nat) (ss : List σ) (dst : List α), k < ss.length →
      n * (k + 1) ≤ dst.length →
      ((writeChunksZip n g ss dst).drop (n * k)).take n
        = g (ss.getD k s₀) ((dst.drop (n * k)).take n) := by
  intro k
  induction k with
  | zero =>
    intro ss dst hk hdst
    cases ss with
    | nil => simp at hk
    | cons s ss =>
      have hle : n ≤ dst.length := by omega
      unfold writeChunksZip
      rw [if_pos ⟨hn, hle⟩]
      have htake : (g s (dst.take n)).length = n :=
        hg _ _ (List.length_take_of_le hle)
      simp only [Nat.mul_zero, List.drop_zero, List.getD_cons_zero]
      rw [List.take_left' htake]
  | succ k ih =>
    intro ss dst hk hdst
    cases ss with
    | nil => simp at hk
    | cons s ss =>
      have hms : n * (k + 1 + 1) = n * (k + 1) + n := by ring
      have hle : n ≤ dst.length := by
        have h1 : n ≤ n * (k + 1 + 1) := by
          calc n = n * 1 := by ring
          _ ≤ n * (k + 1 + 1) := Nat.mul_le_mul_left n (by omega)
        omega
      unfold writeChunksZip
      rw [if_pos ⟨hn, hle⟩]
      have htake : (g s (dst.take n)).length = n :=
        hg _ _ (List.length_take_of_le hle)
      have hsplit : n * (k + 1) = (g s (dst.take n)).length + n * k := by
        rw [htake]; ring
      rw [hsplit, List.drop_append]
      have hrec : n * (k + 1) ≤ (dst.drop n).length := by
        simp only [List.length_drop]
        omega
      rw [ih ss (dst.drop n) (by simp at hk; omega) hrec]
      simp only [List.getD_cons_succ]
      rw [List.drop_drop, htake]

theorem writeChunksZip_getD {n : Nat} (hn : 0 < n) {g : σ → List α → List α}
    (hg : ∀ (s : σ) (c : List α), c.length = n → (g s c).length = n) (s₀ : σ)
    (k j : Nat) (ss : List σ) (dst : List α) (hk : k < ss.length)
    (hdst : n * (k + 1) ≤ dst.length) (hj : j < n) (d : α) :
    (writeChunksZip n g ss dst).getD (n * k + j) d
      = (g (ss.getD k s₀) ((dst.drop (n * k)).take n)).getD j d := by
  have h := writeChunksZip_chunk hn hg s₀ k ss dst hk hdst
  calc (writeChunksZip n g ss dst).getD (n * k + j) d
      = ((writeChunksZip n g ss dst).drop (n * k)).getD j d := by
        rw [getD_list_drop]
    _ = (((writeChunksZip n g ss dst).drop (n * k)).take n).getD j d := by
        rw [getD_list_take _ hj]
    _ = (g (ss.getD k s₀) ((dst.drop (n * k)).take n)).getD j d := by rw [h]

theorem getD_list_map {β : Type} (f : α → β) (l : List α) {j : Nat}
    (hj : j < l.length) (d : β) (e : α) :
    (l.map f).getD j d = f (l.getD j e) := by
  simp [List.getD_eq_getElem?_getD, List.getElem?_map,
    List.getElem?_eq_getElem hj]

theorem writeChunksZip_cons (n : Nat) (g : σ → List α → List α) (s : σ)
    (ss : List σ) (dst : List α) :
    writeChunksZip n g (s :: ss) dst
      = if 0 < n ∧ n ≤ dst.length then
          g s (dst.take n) ++ writeChunksZip n g ss (dst.drop n)
        else dst := rfl

theorem writeChunksZip_chunksExactGo {n : Nat} (hn : 0 < n)
    (f : List α → List α) :
    ∀ (m : Nat) (l : List α), n * m ≤ l.length →
      writeChunksZip n (fun p _ => f p) (chunksExactGo n m l) l
        = applyChunksGo n f m l := by
  intro m
  induction m with
  | zero => intro l _; rfl
  | succ m ih =>
    intro l hm
    have hx : n * (m + 1) = n * m + n := by ring
    have hle : n ≤ l.length := by omega
    have hrec : n * m ≤ (l.drop n).length := by
      simp only [List.length_drop]
      omega
    show writeChunksZip n (fun p _ => f p)
        (l.take n :: chunksExactGo n m (l.drop n)) l = _
    rw [writeChunksZip_cons, if_pos ⟨hn, hle⟩, ih _ hrec]
    rfl

end ChunkLemmas

section Claims

open ImageBuffer

/-- C1: for every width, height, COMPONENTS_PER_PEL and HAS_ALPHA, every
construction path (with_data on success, empty, with_val) yields a buffer
with `data.length = width * height * COMPONENTS_PER_PEL`, and every
in-place mutation (apply, a full mutation pass through a mutable
iteration view, put_plane, put_plane_const) leaves the data length
unchanged. -/
theorem layout_invariant_all_paths (α : Type) [Zero α] [Inhabited α]
    (cpp : Nat) (ha : Bool) (w h : Nat) :
    (∀ (d : List α) (b : ImageBuffer α cpp ha),
        with_data α cpp ha d w h = .ok b → b.data.length = w * h * cpp) ∧
    (empty α cpp ha w h).data.length = w * h * cpp ∧
    (∀ p : List α,
        (with_val α cpp ha p w h).data.length = w * h * cpp) ∧
    (∀ (b : ImageBuffer α cpp ha) (f : List α → List α),
        (∀ c : List α, c.length = cpp → (f c).length = cpp) →
        (b.apply f).data.length = b.data.length) ∧
    (∀ (b : ImageBuffer α cpp ha) (g : List α → List α),
        (∀ c : List α, c.length = cpp → (g c).length = cpp) →
        (applyChunks cpp g b.data).length = b.data.length) ∧
    (∀ (b : ImageBuffer α cpp ha) (i : Nat) (plane : ImageBuffer α 1 false),
        (b.put_plane i plane).data.length = b.data.length) ∧
    (∀ (b : ImageBuffer α cpp ha) (i : Nat) (plane : ImageBuffer α 1 false),
        (put_plane_const i b plane).data.length = b.data.length) := by
  refine ⟨?_, ?_, ?_, ?_, ?_, ?_, ?_⟩
  · intro d b hb
    simp only [with_data] at hb
    by_cases hlen : d.length = w * h * cpp
    · rw [if_neg (by simp [hlen])] at hb
      cases hb
      exact hlen
    · rw [if_pos hlen] at hb
      simp at hb
  · simp [empty]
  · intro p
    have hlen := applyChunks_length (n := cpp)
      (g := fun pel => zipWrite pel p)
      (fun c hc => by rw [zipWrite_length]; exact hc)
      (List.replicate (w * h * cpp) (0 : α))
    simpa [with_val] using hlen
  · intro b f hf
    exact applyChunks_length hf b.data
  · intro b g hg
    exact applyChunks_length hg b.data
  · intro b i plane
    exact writeChunksZip_length
      (fun s c hc => by rw [List.length_set]; exact hc) _ _
  · intro b i plane
    exact writeChunksZip_length
      (fun s c hc => by rw [List.length_set]; exact hc) _ _

/-- C1 witness: the constructors and mutators at concrete inputs. -/
theorem layout_invariant_all_paths_witness :
    (with_val Nat 2 true [5, 6] 1 2).data.length = 1 * 2 * 2 ∧
    (empty Nat 2 true 1 2).data.length = 1 * 2 * 2 ∧
    ((⟨[1, 2, 3, 4], 1, 2⟩ : ImageBuffer Nat 2 true).apply
        (fun c => c.map (· + 1))).data.length = 4 := by
  refine ⟨(layout_invariant_all_paths Nat 2 true 1 2).2.2.1 [5, 6],
    (layout_invariant_all_paths Nat 2 true 1 2).2.1, ?_⟩
  have h := (layout_invariant_all_paths Nat 2 true 1 2).2.2.2.1
    ⟨[1, 2, 3, 4], 1, 2⟩ (fun c => c.map (· + 1))
    (fun c hc => by simp [hc])
  simpa using h

/-- C2 (evaluation of the code at the failing input): on a 1x1 buffer with
COMPONENTS_PER_PEL = 4 and HAS_ALPHA = true, the alpha-skipping views
yield a full 4-component pixel (not 3), and overwriting component 3
through the alpha-skipping mutable view (iter_mut, as apply does) changes
the stored alpha value from 40 to 255. -/
theorem skip_alpha_views_not_truncated :
    ((⟨[10, 20, 30, 40], 1, 1⟩ : ImageBuffer Nat 4 true).iter
        = [[10, 20, 30, 40]]) ∧
    (((⟨[10, 20, 30, 40], 1, 1⟩ : ImageBuffer Nat 4 true).iter.getD 0
        []).length = 4) ∧
    ((⟨[10, 20, 30, 40], 1, 1⟩ : ImageBuffer Nat 4 true).iter_no_alpha
        = [[10, 20, 30, 40]]) ∧
    (((⟨[10, 20, 30, 40], 1, 1⟩ : ImageBuffer Nat 4 true).apply
        (fun p => p.set 3 255)).data = [10, 20, 30, 255]) := by
  decide

/-- C3: with_data fails with the layout-mismatch error exactly when the
data length differs from `width * height * COMPONENTS_PER_PEL`, and on
success returns the supplied vector unmodified with the given width and
height. -/
theorem with_data_layout_check (α : Type) (cpp : Nat) (ha : Bool)
    (d : List α) (w h : Nat) :
    (d.length ≠ w * h * cpp →
      with_data α cpp ha d w h
        = .error "Data vector length does not match width, height, and number of components per pixel") ∧
    (d.length = w * h * cpp →
      with_data α cpp ha d w h = .ok { data := d, width := w, height := h }) := by
  constructor <;> intro hl <;> simp [with_data, hl]

/-- C3 witness: a mismatched length fails, a matched length succeeds with
the same vector. -/
theorem with_data_layout_check_witness :
    (with_data Nat 2 true [0, 0, 0] 1 1
      = .error "Data vector length does not match width, height, and number of components per pixel") ∧
    (with_data Nat 2 true [0, 0] 1 1 = .ok ⟨[0, 0], 1, 1⟩) :=
  ⟨(with_data_layout_check Nat 2 true [0, 0, 0] 1 1).1 (by decide),
   (with_data_layout_check Nat 2 true [0, 0] 1 1).2 (by decide)⟩

/-- C5: apply and map compute the same buffer: the in-place variant ends
with exactly the contents the allocating variant returns from the original
contents. -/
theorem apply_eq_map (α : Type) (cpp : Nat) (ha : Bool)
    (b : ImageBuffer α cpp ha) (f : List α → List α) :
    b.apply f = b.map f := by
  cases b with
  | mk data w h =>
    simp only [ImageBuffer.apply, ImageBuffer.map, ImageBuffer.iter,
      ImageBuffer.iter_no_alpha, ImageBuffer.mk.injEq, and_true]
    by_cases hn : 0 < cpp
    · simp only [applyChunks, chunksExact, if_pos hn]
      exact (writeChunksZip_chunksExactGo hn f (data.length / cpp) data
        (by rw [Nat.mul_comm]; exact Nat.div_mul_le_self _ _)).symm
    · simp only [applyChunks, chunksExact, if_neg hn]
      rfl

/-- C4: every iteration view yields exactly `width * height` items, and
item `k` is the component run of length COMPONENTS_PER_PEL starting at
flat index `k * COMPONENTS_PER_PEL`, i.e. the pixel at
`(k % width, k / width)`, in ascending row-major order.  All six views
coincide with iter_no_alpha. -/
theorem iteration_views_row_major (α : Type) (cpp : Nat) (ha : Bool)
    (b : ImageBuffer α cpp ha) (hn : 0 < cpp)
    (hlen : b.data.length = b.width * b.height * cpp) :
    b.iter = b.iter_no_alpha ∧
    b.iter_with_alpha = b.iter_no_alpha ∧
    b.iter_mut = b.iter_no_alpha ∧
    b.iter_no_alpha_mut = b.iter_no_alpha ∧
    b.iter_with_alpha_mut = b.iter_no_alpha ∧
    b.iter_no_alpha.length = b.width * b.height ∧
    (∀ k, k < b.width * b.height →
      b.iter_no_alpha.getD k [] = (b.data.drop (cpp * k)).take cpp) := by
  refine ⟨rfl, rfl, rfl, rfl, rfl, ?_, ?_⟩
  · rw [ImageBuffer.iter_no_alpha, chunksExact_length_of_pos hn, hlen,
      Nat.mul_div_cancel _ hn]
  · intro k hk
    rw [ImageBuffer.iter_no_alpha, chunksExact_getD hn]
    rw [hlen, Nat.mul_div_cancel _ hn]
    exact hk

/-- C4 witness: a 1x2 three-channel buffer yields two items, the second
being the second pixel's component run. -/
theorem iteration_views_row_major_witness :
    ((⟨[1, 2, 3, 4, 5, 6], 1, 2⟩ : ImageBuffer Nat 3 false).iter_no_alpha.length
      = 2) ∧
    ((⟨[1, 2, 3, 4, 5, 6], 1, 2⟩ : ImageBuffer Nat 3 false).iter_no_alpha.getD 1
      [] = [4, 5, 6]) := by
  have h := iteration_views_row_major Nat 3 false ⟨[1, 2, 3, 4, 5, 6], 1, 2⟩
    (by decide) (by decide)
  exact ⟨by simpa using h.2.2.2.2.2.1, by simpa using h.2.2.2.2.2.2 1 (by decide)⟩

/-- C7: get_plane errors exactly when the index reaches
COMPONENTS_PER_PEL; on success it returns a plane of the same dimensions
whose pixel `k` holds source pixel `k`'s channel `i`; get_alpha is none
exactly when HAS_ALPHA is false and otherwise returns the plane get_plane
extracts at index COMPONENTS_PER_PEL - 1. -/
theorem get_plane_and_alpha (α : Type) [Inhabited α] [Zero α]
    (cpp : Nat) (ha : Bool) (b : ImageBuffer α cpp ha) (hn : 0 < cpp)
    (hlen : b.data.length = b.width * b.height * cpp) :
    (∀ i, cpp ≤ i → b.get_plane i = .error "Plane index out of bounds") ∧
    (∀ i, i < cpp → ∃ p, b.get_plane i = .ok p ∧ p.width = b.width ∧
      p.height = b.height ∧ p.data.length = b.width * b.height ∧
      (∀ k, k < b.width * b.height →
        p.data.getD k default = b.data.getD (cpp * k + i) default)) ∧
    (ha = false → b.get_alpha = none) ∧
    (ha = true → ∃ p, b.get_plane (cpp - 1) = .ok p ∧ b.get_alpha = some p) := by
  have hplane : ∀ i, i < cpp → ∃ p, b.get_plane i = .ok p ∧ p.width = b.width ∧
      p.height = b.height ∧ p.data.length = b.width * b.height ∧
      (∀ k, k < b.width * b.height →
        p.data.getD k default = b.data.getD (cpp * k + i) default) := by
    intro i hi
    refine ⟨_, by rw [ImageBuffer.get_plane, if_neg (by omega)], rfl, rfl, ?_, ?_⟩
    · rw [writeChunksZip_length (fun s c hc => by simp)]
      simp
    · intro k hk
      have hg : ∀ (s : List α) (c : List α), c.length = 1 →
          ((fun pel _old => [pel.getD i default]) s c).length = 1 :=
        fun s c hc => by simp
      have hk_src : k < (b.iter).length := by
        rw [ImageBuffer.iter, ImageBuffer.iter_no_alpha,
          chunksExact_length_of_pos hn, hlen, Nat.mul_div_cancel _ hn]
        exact hk
      have hk_dst : 1 * (k + 1) ≤ (List.replicate (b.width * b.height * 1)
          (0 : α)).length := by
        simp
        omega
      have h := writeChunksZip_getD (n := 1) (by omega) hg ([] : List α) k 0
        b.iter (List.replicate (b.width * b.height * 1) 0) hk_src hk_dst
        (by omega) default
      simp only [Nat.one_mul, Nat.add_zero] at h
      rw [h]
      have hiter : (b.iter).getD k [] = (b.data.drop (cpp * k)).take cpp := by
        rw [ImageBuffer.iter, ImageBuffer.iter_no_alpha, chunksExact_getD hn]
        rw [hlen, Nat.mul_div_cancel _ hn]
        exact hk
      rw [hiter, List.getD_cons_zero, getD_list_take _ hi, getD_list_drop]
  refine ⟨?_, hplane, ?_, ?_⟩
  · intro i hi
    rw [ImageBuffer.get_plane, if_pos hi]
  · intro hb
    rw [ImageBuffer.get_alpha, if_pos hb]
  · intro hb
    obtain ⟨p, hp, _, _, _, _⟩ := hplane (cpp - 1) (by omega)
    refine ⟨p, hp, ?_⟩
    rw [ImageBuffer.get_alpha, if_neg (by simp [hb]), hp]
    rfl

/-- C7 witness: on a 1x1 RGBA byte buffer, index 5 is rejected and the
in-range behavior is delivered by the theorem at index 1. -/
theorem get_plane_and_alpha_witness :
    ((⟨[1, 2, 3, 4], 1, 1⟩ : ImageBuffer Nat 4 true).get_plane 5
      = .error "Plane index out of bounds") ∧
    ((⟨[1, 2, 3, 4], 1, 1⟩ : ImageBuffer Nat 4 true).get_alpha ≠ none) := by
  have h := get_plane_and_alpha Nat 4 true ⟨[1, 2, 3, 4], 1, 1⟩
    (by decide) (by decide)
  refine ⟨h.1 5 (by decide), ?_⟩
  obtain ⟨p, _, hsome⟩ := h.2.2.2 rfl
  simp [hsome]

/-- C10: on a buffer with HAS_ALPHA = true (and at least one channel, per
the data model), the internal get_plane call of get_alpha succeeds, so the
unwrap_or_default fallback is never taken and get_alpha returns exactly
the plane get_plane extracts at the last channel. -/
theorem get_alpha_fallback_unreachable (α : Type) [Inhabited α] [Zero α]
    (cpp : Nat) (b : ImageBuffer α cpp true) (hn : 0 < cpp) :
    ∃ p, b.get_plane (cpp - 1) = .ok p ∧ b.get_alpha = some p := by
  refine ⟨_, by rw [ImageBuffer.get_plane, if_neg (by omega)], ?_⟩
  rw [ImageBuffer.get_alpha, if_neg (by simp),
    ImageBuffer.get_plane, if_neg (by omega)]
  rfl

/-- C10 witness: a concrete two-channel alpha buffer, whose alpha plane is
returned, not the default fallback. -/
theorem get_alpha_fallback_unreachable_witness :
    (⟨[7, 8], 1, 1⟩ : ImageBuffer Nat 2 true).get_alpha = some ⟨[8], 1, 1⟩ := by
  obtain ⟨p, hp, hsome⟩ :=
    get_alpha_fallback_unreachable Nat 2 ⟨[7, 8], 1, 1⟩ (by decide)
  have hcalc : (⟨[7, 8], 1, 1⟩ : ImageBuffer Nat 2 true).get_plane 1
      = .ok ⟨[8], 1, 1⟩ := by rfl
  rw [hp] at hcalc
  cases hcalc
  exact hsome

/-- C9: for each of the five supported component types the factory wraps a
Color-Space value in the matching Image variant, and the width and height
accessors dispatch across all five variants, delegating through the
Color-Space layer to the wrapped buffer. -/
theorem image_factory_accessors :
    (∀ cs : ColorSpace U8, ImageFactory.make_image cs = Image.u8 cs ∧
      (ImageFactory.make_image cs).width = cs.cs_width ∧
      (ImageFactory.make_image cs).height = cs.cs_height) ∧
    (∀ cs : ColorSpace U16, ImageFactory.make_image cs = Image.u16 cs ∧
      (ImageFactory.make_image cs).width = cs.cs_width ∧
      (ImageFactory.make_image cs).height = cs.cs_height) ∧
    (∀ cs : ColorSpace U32, ImageFactory.make_image cs = Image.u32 cs ∧
      (ImageFactory.make_image cs).width = cs.cs_width ∧
      (ImageFactory.make_image cs).height = cs.cs_height) ∧
    (∀ cs : ColorSpace U64, ImageFactory.make_image cs = Image.u64 cs ∧
      (ImageFactory.make_image cs).width = cs.cs_width ∧
      (ImageFactory.make_image cs).height = cs.cs_height) ∧
    (∀ cs : ColorSpace U128, ImageFactory.make_image cs = Image.u128 cs ∧
      (ImageFactory.make_image cs).width = cs.cs_width ∧
      (ImageFactory.make_image cs).height = cs.cs_height) ∧
    (∀ (T : Type) (b : ImageBuffer T 4 true),
      (ColorSpace.Rgba b).cs_width = b.width ∧
      (ColorSpace.Rgba b).cs_height = b.height) ∧
    (∀ (T : Type) (b : ImageBuffer T 3 false),
      ((ColorSpace.Rgb b).cs_width = b.width ∧
        (ColorSpace.Rgb b).cs_height = b.height) ∧
      ((ColorSpace.Hsv b).cs_width = b.width ∧
        (ColorSpace.Hsv b).cs_height = b.height) ∧
      ((ColorSpace.Cielab' b).cs_width = b.width ∧
        (ColorSpace.Cielab' b).cs_height = b.height)) := by
  exact ⟨fun cs => ⟨rfl, rfl, rfl⟩, fun cs => ⟨rfl, rfl, rfl⟩,
    fun cs => ⟨rfl, rfl, rfl⟩, fun cs => ⟨rfl, rfl, rfl⟩,
    fun cs => ⟨rfl, rfl, rfl⟩, fun T b => ⟨rfl, rfl⟩,
    fun T b => ⟨⟨rfl, rfl⟩, ⟨rfl, rfl⟩, ⟨rfl, rfl⟩⟩⟩

/-- C6: as_other keeps width and height, produces a buffer of the new
layout in which destination channel `j` of each pixel holds the numeric
cast of source channel `j` whenever `j` is valid in both layouts (with the
destination default substituted on cast failure), destination channels
beyond the source channel count hold zero, and extra source channels are
dropped. -/
theorem as_other_cast_by_position (α β : Type) [Inhabited α] [Inhabited β]
    [Zero β] (cpp newCpp : Nat) (ha newHa : Bool) (cast : α → Option β)
    (b : ImageBuffer α cpp ha) (hn : 0 < cpp) (hm : 0 < newCpp)
    (hlen : b.data.length = b.width * b.height * cpp) :
    (b.as_other newCpp newHa cast).width = b.width ∧
    (b.as_other newCpp newHa cast).height = b.height ∧
    (b.as_other newCpp newHa cast).data.length
      = b.width * b.height * newCpp ∧
    (∀ k j, k < b.width * b.height → j < newCpp →
      (b.as_other newCpp newHa cast).data.getD (newCpp * k + j) 0
        = if j < cpp then
            (cast (b.data.getD (cpp * k + j) default)).getD default
          else 0) := by
  have hg : ∀ (s : List α) (c : List β), c.length = newCpp →
      ((fun pel old => zipWrite old (pel.map fun a => (cast a).getD default))
        s c).length = newCpp :=
    fun s c hc => by rw [zipWrite_length]; exact hc
  refine ⟨rfl, rfl, ?_, ?_⟩
  · show (writeChunksZip newCpp _ b.iter
      (List.replicate (b.width * b.height * newCpp) 0)).length = _
    rw [writeChunksZip_length hg]
    simp
  · intro k j hk hj
    have hk_src : k < (b.iter).length := by
      rw [ImageBuffer.iter, ImageBuffer.iter_no_alpha,
        chunksExact_length_of_pos hn, hlen, Nat.mul_div_cancel _ hn]
      exact hk
    have hdst_exp : newCpp * (k + 1) ≤ b.width * b.height * newCpp := by
      calc newCpp * (k + 1) ≤ newCpp * (b.width * b.height) :=
            Nat.mul_le_mul_left _ (by omega)
        _ = b.width * b.height * newCpp := Nat.mul_comm _ _
    have hk_dst : newCpp * (k + 1)
        ≤ (List.replicate (b.width * b.height * newCpp) (0 : β)).length := by
      rw [List.length_replicate]
      exact hdst_exp
    have h := writeChunksZip_getD hm hg ([] : List α) k j b.iter
      (List.replicate (b.width * b.height * newCpp) 0) hk_src hk_dst hj (0 : β)
    show (writeChunksZip newCpp _ b.iter
      (List.replicate (b.width * b.height * newCpp) 0)).getD (newCpp * k + j) 0
        = _
    rw [h]
    have hsplit : newCpp * (k + 1) = newCpp * k + newCpp := by ring
    have hchunk : ((List.replicate (b.width * b.height * newCpp)
        (0 : β)).drop (newCpp * k)).take newCpp = List.replicate newCpp 0 := by
      rw [List.drop_replicate, List.take_replicate]
      congr 1
      omega
    have hiter : (b.iter).getD k [] = (b.data.drop (cpp * k)).take cpp := by
      rw [ImageBuffer.iter, ImageBuffer.iter_no_alpha, chunksExact_getD hn]
      rw [hlen, Nat.mul_div_cancel _ hn]
      exact hk
    have hsrc_exp : cpp * (k + 1) = cpp * k + cpp := by ring
    have hsrc_le : cpp * k + cpp ≤ b.data.length := by
      rw [hlen]
      calc cpp * k + cpp = cpp * (k + 1) := by ring
        _ ≤ cpp * (b.width * b.height) := Nat.mul_le_mul_left _ (by omega)
        _ = b.width * b.height * cpp := Nat.mul_comm _ _
    have hpel_len : ((b.data.drop (cpp * k)).take cpp).length = cpp := by
      simp only [List.length_take, List.length_drop]
      omega
    rw [hchunk, hiter]
    rw [zipWrite_getD]
    simp only [List.length_replicate, List.length_map, hpel_len]
    by_cases hcj : j < cpp
    · rw [if_pos (by omega), if_pos hcj]
      rw [getD_list_map _ _ (by omega) _ default]
      rw [getD_list_take _ hcj, getD_list_drop]
    · rw [if_neg (by omega), if_neg hcj]
      simp [List.getD_eq_getElem?_getD, List.getElem?_replicate, hj]

/-- C6 witness: casting a float buffer holding 300.0 into an 8-bit
unsigned buffer yields the default 0 (not a clamped 255). -/
theorem as_other_cast_by_position_witness :
    ((⟨[300], 1, 1⟩ : ImageBuffer ℚ 1 false).as_other 1 false
      numcast_f32_to_u8).data.getD 0 0 = 0 := by
  have h := as_other_cast_by_position ℚ Nat 1 1 false false numcast_f32_to_u8
    ⟨[300], 1, 1⟩ (by decide) (by decide) (by decide)
  have h4 := h.2.2.2 0 0 (by decide) (by decide)
  norm_num [numcast_f32_to_u8] at h4
  exact h4

/-- C8: rgb_to_cielab' computes exactly the documented simplified
arithmetic — it agrees with the specification formula
(rgb_to_cielab_spec) for every input and every cast pair — and on the
literal input [1, 2, 3] (8-bit unsigned in, 32-bit float out, idealised
over ℝ) each output channel is within 1/10000 of the pinned reference
values 6.586956, -2.9099135 and -7.0868254. -/
theorem rgb_to_cielab_formula_and_literal :
    (∀ (α β : Type) [Inhabited α] [Inhabited β]
        (castIn : α → Option ℝ) (castOut : ℝ → Option β) (rgb : List α),
        rgb_to_cielab' castIn castOut rgb
          = rgb_to_cielab_spec castIn castOut rgb) ∧
    |(rgb_to_cielab' numcast_u8_to_f32 numcast_f32_to_f32 [1, 2, 3]).getD 0 0
        - 6.586956| < 1 / 10000 ∧
    |(rgb_to_cielab' numcast_u8_to_f32 numcast_f32_to_f32 [1, 2, 3]).getD 1 0
        - (-2.9099135)| < 1 / 10000 ∧
    |(rgb_to_cielab' numcast_u8_to_f32 numcast_f32_to_f32 [1, 2, 3]).getD 2 0
        - (-7.0868254)| < 1 / 10000 := by
  have heval :
      rgb_to_cielab' numcast_u8_to_f32 numcast_f32_to_f32 [1, 2, 3]
        = [116.0 * (7.787 * ((1:ℝ)/255 * 0.2126729 + 2/255 * 0.7151522
              + 3/255 * 0.0721750) + 16.0/116.0) - 16.0,
           500.0 * ((7.787 * ((1:ℝ)/255 * 0.4124564 + 2/255 * 0.3575761
                + 3/255 * 0.1804375) + 16.0/116.0)
              - (7.787 * ((1:ℝ)/255 * 0.2126729 + 2/255 * 0.7151522
                + 3/255 * 0.0721750) + 16.0/116.0)),
           200.0 * ((7.787 * ((1:ℝ)/255 * 0.2126729 + 2/255 * 0.7151522
                + 3/255 * 0.0721750) + 16.0/116.0)
              - ((1:ℝ)/255 * 0.0193339 + 2/255 * 0.1191920
                + 3/255 * 0.9503041) ^ ((1:ℝ)/3))] := by
    rw [rgb_to_cielab']
    norm_num [numcast_u8_to_f32, numcast_f32_to_f32]
  have hz : ((1:ℝ)/255 * 0.0193339 + 2/255 * 0.1191920 + 3/255 * 0.9503041)
      = 914303 / 75000000 := by norm_num
  have hlo : (0.2301492834 : ℝ)
      ≤ ((1:ℝ)/255 * 0.0193339 + 2/255 * 0.1191920 + 3/255 * 0.9503041)
          ^ ((1:ℝ)/3) := by
    rw [hz]
    calc (0.2301492834 : ℝ)
        = (((0.2301492834 : ℝ) ^ (3:ℕ)) : ℝ) ^ ((1:ℝ)/3) := by
          rw [← Real.rpow_natCast (0.2301492834 : ℝ) 3,
            ← Real.rpow_mul (by norm_num)]
          norm_num
      _ ≤ ((914303 / 75000000 : ℝ)) ^ ((1:ℝ)/3) :=
          Real.rpow_le_rpow (by norm_num) (by norm_num) (by norm_num)
  have hhi : ((1:ℝ)/255 * 0.0193339 + 2/255 * 0.1191920 + 3/255 * 0.9503041)
      ^ ((1:ℝ)/3) ≤ (0.2301492836 : ℝ) := by
    rw [hz]
    calc ((914303 / 75000000 : ℝ)) ^ ((1:ℝ)/3)
        ≤ (((0.2301492836 : ℝ) ^ (3:ℕ)) : ℝ) ^ ((1:ℝ)/3) :=
          Real.rpow_le_rpow (by norm_num) (by norm_num) (by norm_num)
      _ = (0.2301492836 : ℝ) := by
          rw [← Real.rpow_natCast (0.2301492836 : ℝ) 3,
            ← Real.rpow_mul (by norm_num)]
          norm_num
  refine ⟨?_, ?_, ?_, ?_⟩
  · intro α β _ _ castIn castOut rgb
    rw [rgb_to_cielab', rgb_to_cielab_spec]
    norm_num [cie_compand]
  · rw [heval]
    simp only [List.getD_cons_zero]
    rw [abs_lt]
    constructor <;> norm_num
  · rw [heval]
    simp only [List.getD_cons_succ, List.getD_cons_zero]
    rw [abs_lt]
    constructor <;> norm_num
  · rw [heval]
    simp only [List.getD_cons_succ, List.getD_cons_zero]
    rw [abs_lt]
    constructor <;> nlinarith [hlo, hhi]

end Claims

end BetterImages
